import Mathlib

/-!
Verification of the ExceLint add-in's formula-analysis layer.

The development shallowly embeds the code of `src/taskpane/components/App.tsx`
(the staged incremental fat-cross analysis and the host accessors) together
with the parts of the analysis core it calls.  The core modules
(`ExceLintTypes`, `colorize`, `rectangleutils`, `analysis`) are not part of
this repository's sources; wherever a definition embeds one of them it is
modelled from the specification and its doc comment says so.
-/

namespace ExceLint

/-- Embeds `XLNT.ExceLintVector`: an integer triple used both as an absolute
address (column, row, sheet) and as a relative offset. -/
structure ExceLintVector where
  x : Int
  y : Int
  z : Int
deriving DecidableEq

/-- Modelled from the spec: the canonical dictionary key of a vector (§3).
Two vectors produce the same key exactly when their components are equal, so
the key is modelled by the vector itself. -/
def ExceLintVector.asKey (v : ExceLintVector) : ExceLintVector := v

/-- Modelled from the spec: `XLNT.Dictionary`, an insertion-order-preserving
mapping with unique keys (§3), embedded as an association list. -/
abbrev Dictionary (K V : Type) := List (K × V)

/-- Membership test of `XLNT.Dictionary.contains`. -/
def Dictionary.contains {K V : Type} [DecidableEq K] (d : Dictionary K V) (k : K) : Bool :=
  d.any (fun p => decide (p.1 = k))

/-- Point lookup of `XLNT.Dictionary.get`; an absent key fails explicitly
(spec §7), so the result is an `Option`. -/
def Dictionary.get {K V : Type} [DecidableEq K] (d : Dictionary K V) (k : K) : Option V :=
  (d.find? (fun p => decide (p.1 = k))).map (fun p => p.2)

/-- Insert/overwrite of `XLNT.Dictionary.put`: an existing key keeps its
position and gets the new value; a fresh key is appended. -/
def Dictionary.put {K V : Type} [DecidableEq K] (d : Dictionary K V) (k : K) (v : V) :
    Dictionary K V :=
  if d.contains k then d.map (fun p => if p.1 = k then (k, v) else p) else d ++ [(k, v)]

/-- Key-predicate filtering of `XLNT.Dictionary.keyFilter`. -/
def Dictionary.keyFilter {K V : Type} (d : Dictionary K V) (p : K → Bool) : Dictionary K V :=
  d.filter (fun e => p e.1)

/-- Merge of `XLNT.Dictionary.merge`: the right (overriding) side wins on key
collision (spec §3). -/
def Dictionary.merge {K V : Type} [DecidableEq K] (d other : Dictionary K V) : Dictionary K V :=
  other.foldl (fun acc e => acc.put e.1 e.2) d

/-- Embeds `XLNT.Address`: a 1-based absolute cell address plus sheet name. -/
structure Address where
  worksheet : String
  row : Int
  column : Int
deriving DecidableEq

/-- The spatial vector of an address (sheet index 0, as in the source). -/
def Address.asVector (a : Address) : ExceLintVector := ⟨a.column, a.row, 0⟩

/-- Embeds `XLNT.Range`: an axis-aligned rectangular region given by its
1-based corner coordinates on one sheet. -/
structure Range where
  sheet : String
  upperLeftColumn : Int
  upperLeftRow : Int
  bottomRightColumn : Int
  bottomRightRow : Int
deriving DecidableEq

/-- Embeds `XLNT.Rectangle`: a sheet-local pair of corner vectors. -/
structure Rectangle where
  upperleft : ExceLintVector
  bottomright : ExceLintVector
deriving DecidableEq

/-- The rectangle of a range (`XLNT.Range.rectangle`). -/
def Range.rectangle (r : Range) : Rectangle :=
  ⟨⟨r.upperLeftColumn, r.upperLeftRow, 0⟩, ⟨r.bottomRightColumn, r.bottomRightRow, 0⟩⟩

/-- The inclusive list of integers from `lo` to `hi` (empty when `hi < lo`). -/
def intRange (lo hi : Int) : List Int :=
  if hi < lo then [] else (List.range ((hi - lo).toNat + 1)).map (fun i => lo + (i : Int))

/-- Embeds `XLNT.Rectangle.expand`: all cell vectors inside the rectangle. -/
def Rectangle.expand (r : Rectangle) : List ExceLintVector :=
  (intRange r.upperleft.y r.bottomright.y).flatMap (fun yy =>
    (intRange r.upperleft.x r.bottomright.x).map (fun xx => ⟨xx, yy, r.upperleft.z⟩))

/-- Containment of a cell vector in a rectangle (componentwise bounds). -/
def Rectangle.containsVector (r : Rectangle) (v : ExceLintVector) : Bool :=
  decide (r.upperleft.x ≤ v.x) && decide (v.x ≤ r.bottomright.x) &&
  decide (r.upperleft.y ≤ v.y) && decide (v.y ≤ r.bottomright.y) &&
  decide (r.upperleft.z ≤ v.z) && decide (v.z ≤ r.bottomright.z)

/-- Embeds `XLNT.ProposedFix`: an anomaly score together with the two
rectangles of the fix.  The spec treats the score as an opaque numeric
magnitude (§3, §9); it is embedded as an integer-scaled magnitude, larger
meaning more suspicious. -/
structure ProposedFix where
  score : Int
  rect1 : Rectangle
  rect2 : Rectangle
deriving DecidableEq

/-- Embeds `XLNT.ProposedFix.includesCellAt`: a fix includes a cell when
either rectangle contains it (spec §3). -/
def ProposedFix.includesCellAt (pf : ProposedFix) (addr : Address) : Bool :=
  pf.rect1.containsVector addr.asVector || pf.rect2.containsVector addr.asVector

/-- Embeds `XLNT.RectInfo`: a rectangle together with the formula text of its
representative (upper-left) cell, when present. -/
structure RectInfo where
  rect : Rectangle
  formula : Option String

/-- Embeds the `Maybe` result type of `option.ts`: `No`, `Possibly v`, or
`Definitely v`. -/
inductive Maybe (α : Type) where
  | no
  | possibly (value : α)
  | definitely (value : α)
deriving DecidableEq

/-!  ### `App.getFormulasFromRange` (App.tsx lines 400-439)  -/

/-- One cell of the `App.getFormulasFromRange` scan: a value starting with
`=`, `+` or `-` is a formula.  A leading `=` is removed; `+`/`-` formulas are
stored verbatim, exactly as in the source. -/
def putCellData (d : Dictionary ExceLintVector String) (x y : Int) (val : String) :
    List Char → Dictionary ExceLintVector String
  | [] => d
  | c :: tail =>
    if c = '=' then d.put (ExceLintVector.asKey ⟨x, y, 0⟩) (String.mk tail)
    else if c = '+' ∨ c = '-' then d.put (ExceLintVector.asKey ⟨x, y, 0⟩) val
    else d

/-- The marker test of `App.getFormulasFromRange` applied to one cell value. -/
def putCell (d : Dictionary ExceLintVector String) (x y : Int) (val : String) :
    Dictionary ExceLintVector String :=
  putCellData d x y val val.data

/-- The inner column loop of `App.getFormulasFromRange`; `x` is the absolute
column of the head cell, `y` the absolute row. -/
def processCols : Dictionary ExceLintVector String → Int → Int → List String →
    Dictionary ExceLintVector String
  | d, _, _, [] => d
  | d, x, y, val :: rest => processCols (putCell d x y val) (x + 1) y rest

/-- The outer row loop of `App.getFormulasFromRange`; `ox` is the range's
origin column, `y` the absolute row of the head row. -/
def processRows : Dictionary ExceLintVector String → Int → Int → List (List String) →
    Dictionary ExceLintVector String
  | d, _, _, [] => d
  | d, ox, y, row :: rest => processRows (processCols d ox y row) ox (y + 1) rest

/-- Embeds `App.getFormulasFromRange`: scans the host's 2-D formula array for
the range and keeps only the formula cells, keyed by 1-based absolute
address.  `origin_x`/`origin_y` are the range's upper-left coordinates. -/
def App.getFormulasFromRange (formulas : List (List String)) (origin_x origin_y : Int) :
    Dictionary ExceLintVector String :=
  processRows [] origin_x origin_y formulas

/-- The entry contributed by one raw cell value, in the amended reading of the
source: `=`-formulas are stripped of the marker, `+`/`-` formulas are kept
verbatim, anything else contributes nothing. -/
def formulaEntryData (x y : Int) (val : String) : List Char → Option (ExceLintVector × String)
  | [] => none
  | c :: tail =>
    if c = '=' then some (⟨x, y, 0⟩, String.mk tail)
    else if c = '+' ∨ c = '-' then some (⟨x, y, 0⟩, val)
    else none

/-- The entry contributed by one raw cell value, as a total function on the
value. -/
def formulaEntry (x y : Int) (val : String) : Option (ExceLintVector × String) :=
  formulaEntryData x y val val.data

/-- Declarative row-by-row description of the formula cells of a grid. -/
def rowFormulaSpec : Int → Int → List String → List (ExceLintVector × String)
  | _, _, [] => []
  | x, y, v :: rest => (formulaEntry x y v).toList ++ rowFormulaSpec (x + 1) y rest

/-- Declarative description of the formula cells of a whole grid. -/
def gridFormulaSpec : Int → Int → List (List String) → List (ExceLintVector × String)
  | _, _, [] => []
  | ox, y, row :: rest => rowFormulaSpec ox y row ++ gridFormulaSpec ox (y + 1) rest

lemma Dictionary.put_fresh {K V : Type} [DecidableEq K] (d : Dictionary K V) (k : K) (v : V)
    (h : d.contains k = false) : d.put k v = d ++ [(k, v)] := by
  simp [Dictionary.put, h]

lemma contains_eq_false_of_forall {K V : Type} [DecidableEq K] (d : Dictionary K V) (k : K)
    (h : ∀ p ∈ d, p.1 ≠ k) : d.contains k = false := by
  simp only [Dictionary.contains, List.any_eq_false, decide_eq_true_eq]
  intro p hp
  exact h p hp

lemma formulaEntry_key {x y : Int} {val : String} {p : ExceLintVector × String}
    (h : formulaEntry x y val = some p) : p.1 = ⟨x, y, 0⟩ := by
  unfold formulaEntry at h
  rcases hd : val.data with _ | ⟨c, tail⟩ <;> rw [hd] at h
  · simp [formulaEntryData] at h
  · simp only [formulaEntryData] at h
    split_ifs at h <;> simp_all <;> simp [← h]

lemma putCell_eq_entry (d : Dictionary ExceLintVector String) (x y : Int) (val : String) :
    putCell d x y val =
      match formulaEntry x y val with
      | some q => d.put q.1 q.2
      | none => d := by
  unfold putCell formulaEntry
  rcases hd : val.data with _ | ⟨c, tail⟩
  · rfl
  · simp only [putCellData, formulaEntryData, ExceLintVector.asKey]
    split_ifs <;> rfl

lemma mem_rowFormulaSpec_key {x y : Int} {row : List String} {p : ExceLintVector × String}
    (h : p ∈ rowFormulaSpec x y row) : p.1.y = y ∧ x ≤ p.1.x := by
  induction row generalizing x with
  | nil => simp [rowFormulaSpec] at h
  | cons v rest ih =>
    simp only [rowFormulaSpec, List.mem_append] at h
    rcases h with h | h
    · rcases hfe : formulaEntry x y v with _ | q <;> rw [hfe] at h
      · simp at h
      · simp only [Option.toList_some, List.mem_singleton] at h
        subst h
        rw [formulaEntry_key hfe]
        exact ⟨rfl, le_refl x⟩
    · obtain ⟨h1, h2⟩ := ih h
      exact ⟨h1, by omega⟩

lemma processCols_spec (row : List String) (d : Dictionary ExceLintVector String) (x y : Int)
    (hfresh : ∀ p ∈ d, p.1.y < y ∨ (p.1.y = y ∧ p.1.x < x)) :
    processCols d x y row = d ++ rowFormulaSpec x y row := by
  induction row generalizing d x with
  | nil => simp [processCols, rowFormulaSpec]
  | cons v rest ih =>
    have hkey : ∀ p ∈ d, p.1 ≠ (⟨x, y, 0⟩ : ExceLintVector) := by
      intro p hp hcontra
      rcases hfresh p hp with h | ⟨h1, h2⟩
      · rw [hcontra] at h
        exact absurd (show y < y from h) (lt_irrefl y)
      · rw [hcontra] at h2
        exact absurd (show x < x from h2) (lt_irrefl x)
    have hput : putCell d x y v = d ++ (formulaEntry x y v).toList := by
      rw [putCell_eq_entry]
      rcases hfe : formulaEntry x y v with _ | q
      · simp
      · have hk := formulaEntry_key hfe
        have hcf : d.contains q.1 = false := by
          rw [hk]; exact contains_eq_false_of_forall d _ hkey
        simp [Dictionary.put_fresh _ _ _ hcf]
    have hfresh' : ∀ p ∈ putCell d x y v, p.1.y < y ∨ (p.1.y = y ∧ p.1.x < x + 1) := by
      rw [hput]
      intro p hp
      rcases List.mem_append.mp hp with h | h
      · rcases hfresh p h with h' | ⟨h1, h2⟩
        · exact Or.inl h'
        · exact Or.inr ⟨h1, by omega⟩
      · rcases hfe : formulaEntry x y v with _ | q <;> rw [hfe] at h
        · simp at h
        · simp only [Option.toList_some, List.mem_singleton] at h
          subst h
          rw [formulaEntry_key hfe]
          exact Or.inr ⟨rfl, show x < x + 1 by omega⟩
    calc processCols d x y (v :: rest)
        = processCols (putCell d x y v) (x + 1) y rest := rfl
      _ = putCell d x y v ++ rowFormulaSpec (x + 1) y rest := ih _ _ hfresh'
      _ = d ++ rowFormulaSpec x y (v :: rest) := by
          rw [hput, List.append_assoc]
          simp [rowFormulaSpec]

lemma processRows_spec (grid : List (List String)) (d : Dictionary ExceLintVector String)
    (ox y : Int) (hfresh : ∀ p ∈ d, p.1.y < y) :
    processRows d ox y grid = d ++ gridFormulaSpec ox y grid := by
  induction grid generalizing d y with
  | nil => simp [processRows, gridFormulaSpec]
  | cons row rest ih =>
    have hcols := processCols_spec row d ox y (fun p hp => Or.inl (hfresh p hp))
    have hfresh' : ∀ p ∈ processCols d ox y row, p.1.y < y + 1 := by
      rw [hcols]
      intro p hp
      rcases List.mem_append.mp hp with h | h
      · have := hfresh p h; omega
      · have := (mem_rowFormulaSpec_key h).1; omega
    calc processRows d ox y (row :: rest)
        = processRows (processCols d ox y row) ox (y + 1) rest := rfl
      _ = processCols d ox y row ++ gridFormulaSpec ox (y + 1) rest := ih _ _ hfresh'
      _ = d ++ gridFormulaSpec ox y (row :: rest) := by
          rw [hcols, gridFormulaSpec, List.append_assoc]

/-- C2 (amended): `App.getFormulasFromRange` includes exactly the cells whose
raw value begins with `=`, `+` or `-`, keyed by their 1-based absolute
addresses; a leading `=` is stripped from the stored text, while `+`/`-`
formulas are stored verbatim (marker kept), and no other cells appear. -/
theorem c2_getFormulasFromRange_amended (formulas : List (List String))
    (origin_x origin_y : Int) :
    App.getFormulasFromRange formulas origin_x origin_y =
      gridFormulaSpec origin_x origin_y formulas := by
  have := processRows_spec formulas [] origin_x origin_y (by intro p hp; simp at hp)
  simpa [App.getFormulasFromRange] using this

/-- C2 (counterexample): a cell whose raw value starts with `+` is stored with
the leading sign marker intact, not stripped, so the claim that the marker is
stripped from the stored formula text is false. -/
theorem c2_counterexample_plus_not_stripped :
    Dictionary.get (App.getFormulasFromRange [["+B9"]] 1 1) ⟨1, 1, 0⟩ = some "+B9" ∧
    Dictionary.get (App.getFormulasFromRange [["+B9"]] 1 1) ⟨1, 1, 0⟩ ≠ some "B9" := by
  decide

/-!  ### Reference extraction (`Analysis.relativeFormulaRefs`)

The analysis core and the reference parser are not part of this repository's
sources; both are modelled from the spec (§1 exclusions, §4.1, and the
scenario of §8, which pins the concrete behaviour). -/

def isUpperAlpha (c : Char) : Bool := decide ('A' ≤ c) && decide (c ≤ 'Z')

def isDigitChar (c : Char) : Bool := decide ('0' ≤ c) && decide (c ≤ '9')

/-- Splits off the longest run of characters satisfying `p`. -/
def spanChars (p : Char → Bool) : List Char → List Char × List Char
  | [] => ([], [])
  | c :: cs => if p c then let s := spanChars p cs; (c :: s.1, s.2) else ([], c :: cs)

/-- Column letters to a 0-based column number (A ↦ 0). -/
def columnIndex (letters : List Char) : Int :=
  letters.foldl (fun acc c => 26 * acc + ((c.toNat : Int) - ('A'.toNat : Int) + 1)) 0 - 1

/-- Row digits to a 0-based row number (1 ↦ 0). -/
def rowIndexVal (digits : List Char) : Int :=
  digits.foldl (fun acc c => 10 * acc + ((c.toNat : Int) - ('0'.toNat : Int))) 0 - 1

/-- Modelled from the spec: one cell token of the external reference-parsing
capability (§1): column letters followed by row digits, yielding the 0-based
(column, row) pair pinned by the scenario of §8. -/
def parseCellRef (cs : List Char) : Option ((Int × Int) × List Char) :=
  let s1 := spanChars isUpperAlpha cs
  match s1.1 with
  | [] => none
  | _ =>
    let s2 := spanChars isDigitChar s1.2
    match s2.1 with
    | [] => none
    | _ => some ((columnIndex s1.1, rowIndexVal s2.1), s2.2)

/-- Modelled from the spec: expansion of a rectangular reference range into
its cells; the deterministic enumeration order (bottom row first) is the one
pinned by the scenario of §8. -/
def expandCellRange (a b : Int × Int) : List (Int × Int) :=
  (intRange a.1 b.1).flatMap (fun xx => ((intRange a.2 b.2).reverse).map (fun yy => (xx, yy)))

/-- Fuel-bounded scan of formula text for cell and range references. -/
def extractRefsData : Nat → List Char → List (Int × Int)
  | 0, _ => []
  | _ + 1, [] => []
  | fuel + 1, c :: cs =>
    match parseCellRef (c :: cs) with
    | some (p1, rest) =>
      match rest with
      | ':' :: rest2 =>
        match parseCellRef rest2 with
        | some (p2, rest3) => expandCellRange p1 p2 ++ extractRefsData fuel rest3
        | none => p1 :: extractRefsData fuel rest
      | _ => p1 :: extractRefsData fuel rest
    | none => extractRefsData fuel cs

/-- Modelled from the spec: the external capability that turns formula text
into the list of cell references it contains (§1, §4.1); unparseable text
contributes no references (§7). -/
def extractRefs (s : String) : List (Int × Int) :=
  extractRefsData s.data.length s.data

/-- Modelled from the spec: `Analysis.relativeFormulaRefs` (§4.1): each
formula's references, made relative to the formula's own address
componentwise, with the sheet dimension included (same-sheet references get
sheet offset 0). -/
def Analysis.relativeFormulaRefs (fs : Dictionary ExceLintVector String) :
    Dictionary ExceLintVector (List ExceLintVector) :=
  fs.map (fun e => (e.1, (extractRefs e.2).map (fun p => ⟨p.1 - e.1.x, p.2 - e.1.y, 0⟩)))

/-- C3: for the input dictionary mapping address (0,5,0) to the formula text
of `=SUM(A1:A5)`, the reference extractor returns that address mapped to
exactly the relative vectors (0,-1,0) through (0,-5,0), in that order. -/
theorem c3_relativeFormulaRefs_scenario :
    Analysis.relativeFormulaRefs
        (Dictionary.put [] (ExceLintVector.asKey ⟨0, 5, 0⟩) "=SUM(A1:A5)") =
      [(⟨0, 5, 0⟩,
        [⟨0, -1, 0⟩, ⟨0, -2, 0⟩, ⟨0, -3, 0⟩, ⟨0, -4, 0⟩, ⟨0, -5, 0⟩])] := by
  decide

/-!  ### Fingerprints and group decomposition  -/

/-- Modelled from the spec: a fingerprint is an opaque deterministic value
computed from the ordered relative-offset list (§3, §4.2).  It is embedded as
the list itself, the canonical collision-free choice: equal reference shape
gives equal fingerprint, any difference changes it, and the empty-reference
fingerprint differs from every reference-bearing one. -/
abbrev Fingerprint := List ExceLintVector

/-- Modelled from the spec: `Colorize.fingerprints` (§4.2), mapping each
address's relative-offset list to its fingerprint. -/
def Colorize.fingerprints (refs : Dictionary ExceLintVector (List ExceLintVector)) :
    Dictionary ExceLintVector Fingerprint :=
  refs.map (fun e => (e.1, e.2))

/-- Inverts an address→fingerprint mapping to fingerprint→address list,
first-occurrence order preserved. -/
def invertFingerprints (fps : Dictionary ExceLintVector Fingerprint) :
    Dictionary Fingerprint (List ExceLintVector) :=
  fps.foldl (fun acc e => acc.put e.2 ((Dictionary.get acc e.2).getD [] ++ [e.1])) []

/-- Cell presence test used by the greedy decomposition. -/
def hasCell (cells : List ExceLintVector) (x y z : Int) : Bool :=
  cells.any (fun v => decide (v = ⟨x, y, z⟩))

/-- Fuel-bounded rightward growth: the width of the run of cells present to
the right of (x, y), starting from width `w`. -/
def growRight (cells : List ExceLintVector) (x y z : Int) : Int → Nat → Int
  | w, 0 => w
  | w, fuel + 1 => if hasCell cells (x + w) y z then growRight cells x y z (w + 1) fuel else w

/-- Whether the whole row segment of width `w` at row `yy` is present. -/
def fullRowPresent (cells : List ExceLintVector) (x yy z w : Int) : Bool :=
  (intRange x (x + w - 1)).all (fun xx => hasCell cells xx yy z)

/-- Fuel-bounded downward growth: the height of the block of full rows below
(x, y) of width `w`, starting from height `h`. -/
def growDown (cells : List ExceLintVector) (x y z w : Int) : Int → Nat → Int
  | h, 0 => h
  | h, fuel + 1 =>
    if fullRowPresent cells x (y + h) z w then growDown cells x y z w (h + 1) fuel else h

/-- Fuel-bounded greedy cover of an address set by rectangles, extending along
rows before columns (the deterministic tie-break of §4.3). -/
def decomposeData : Nat → List ExceLintVector → List Rectangle
  | 0, _ => []
  | _ + 1, [] => []
  | fuel + 1, a :: rest =>
    let cells := a :: rest
    let w := growRight cells a.x a.y a.z 1 cells.length
    let h := growDown cells a.x a.y a.z w 1 cells.length
    let rect : Rectangle := ⟨a, ⟨a.x + w - 1, a.y + h - 1, a.z⟩⟩
    rect :: decomposeData fuel (cells.filter (fun v => !(rect.containsVector v)))

/-- Modelled from the spec: the Group Decomposer's per-fingerprint cover of an
address set by maximal rectangles (§4.3). -/
def decompose (addrs : List ExceLintVector) : List Rectangle :=
  decomposeData addrs.length addrs

/-- Modelled from the spec: `Colorize.identify_groups` (§4.3): invert the
address→fingerprint mapping and decompose each fingerprint's address set into
rectangles. -/
def Colorize.identify_groups (fps : Dictionary ExceLintVector Fingerprint) :
    Dictionary Fingerprint (List Rectangle) :=
  (invertFingerprints fps).map (fun e => (e.1, decompose e.2))

/-!  ### Incremental merger (`Colorize.mergeRectangleDictionaries`,
`Colorize.mergeRectangles`)  -/

/-- Modelled from the spec: `Colorize.mergeRectangleDictionaries` (§4.4):
union of the two fingerprint→rectangle-list mappings; on a common fingerprint
the lists are concatenated. -/
def Colorize.mergeRectangleDictionaries (newGroups oldGroups : Dictionary Fingerprint (List Rectangle)) :
    Dictionary Fingerprint (List Rectangle) :=
  oldGroups.foldl (fun acc e => acc.put e.1 ((Dictionary.get acc e.1).getD [] ++ e.2)) newGroups

/-- The bounding rectangle of two rectangles. -/
def boundingRect (a b : Rectangle) : Rectangle :=
  ⟨⟨min a.upperleft.x b.upperleft.x, min a.upperleft.y b.upperleft.y,
    min a.upperleft.z b.upperleft.z⟩,
   ⟨max a.bottomright.x b.bottomright.x, max a.bottomright.y b.bottomright.y,
    max a.bottomright.z b.bottomright.z⟩⟩

/-- Modelled from the spec: mergeability of two same-fingerprint rectangles
(§3): they are adjacent or overlapping and their union is itself a rectangle,
i.e. every cell of their bounding rectangle lies in one of the two. -/
def RectangleUtils.is_mergeable (a b : Rectangle) : Bool :=
  (boundingRect a b).expand.all (fun v => a.containsVector v || b.containsVector v)

/-- Replaces the first element mergeable with `r` by the merged rectangle. -/
def tryMergeFirst (r : Rectangle) : List Rectangle → Option (List Rectangle)
  | [] => none
  | s :: ss =>
    if RectangleUtils.is_mergeable r s then some (boundingRect r s :: ss)
    else (tryMergeFirst r ss).map (fun l => s :: l)

/-- Performs one coalescing step: merges the first mergeable pair, if any. -/
def mergeOnce : List Rectangle → Option (List Rectangle)
  | [] => none
  | r :: rest =>
    match tryMergeFirst r rest with
    | some rest' => some rest'
    | none => (mergeOnce rest).map (fun l => r :: l)

/-- Fuel-bounded fixed-point iteration of `mergeOnce`. -/
def mergeListData : Nat → List Rectangle → List Rectangle
  | 0, rs => rs
  | fuel + 1, rs =>
    match mergeOnce rs with
    | none => rs
    | some rs' => mergeListData fuel rs'

/-- Coalesces a rectangle list to a fixed point: each `mergeOnce` step shrinks
the list by one, so `length` steps of fuel always reach the fixed point. -/
def mergeList (rs : List Rectangle) : List Rectangle :=
  mergeListData rs.length rs

/-- Modelled from the spec: `Colorize.mergeRectangles` (§4.4): coalesce each
fingerprint's rectangle list until no further merges are possible. -/
def Colorize.mergeRectangles (groups : Dictionary Fingerprint (List Rectangle)) :
    Dictionary Fingerprint (List Rectangle) :=
  groups.map (fun e => (e.1, mergeList e.2))

lemma tryMergeFirst_length {r : Rectangle} {l l' : List Rectangle}
    (h : tryMergeFirst r l = some l') : l'.length = l.length := by
  induction l generalizing l' with
  | nil => simp [tryMergeFirst] at h
  | cons s ss ih =>
    unfold tryMergeFirst at h
    split_ifs at h
    · simp only [Option.some.injEq] at h
      rw [← h]
      simp
    · rcases htl : tryMergeFirst r ss with _ | m <;> rw [htl] at h
      · simp at h
      · simp at h
        rw [← h]
        simp [ih htl]

lemma mergeOnce_length {l l' : List Rectangle} (h : mergeOnce l = some l') :
    l'.length + 1 = l.length := by
  induction l generalizing l' with
  | nil => simp [mergeOnce] at h
  | cons r rest ih =>
    unfold mergeOnce at h
    rcases htm : tryMergeFirst r rest with _ | m <;> rw [htm] at h
    · rcases hmo : mergeOnce rest with _ | m2 <;> rw [hmo] at h
      · simp at h
      · simp at h
        rw [← h]
        simp only [List.length_cons]
        rw [ih hmo]
    · simp only [Option.some.injEq] at h
      rw [← h]
      simp only [List.length_cons]
      rw [tryMergeFirst_length htm]

lemma mergeListData_fixed {fuel : Nat} {rs : List Rectangle}
    (h : rs.length ≤ fuel) : mergeOnce (mergeListData fuel rs) = none := by
  induction fuel generalizing rs with
  | zero =>
    have : rs = [] := List.length_eq_zero.mp (Nat.le_zero.mp h)
    subst this
    simp [mergeListData, mergeOnce]
  | succ fuel ih =>
    unfold mergeListData
    rcases hmo : mergeOnce rs with _ | rs'
    · exact hmo
    · have := mergeOnce_length hmo
      exact ih (by omega)

lemma mergeListData_of_none {fuel : Nat} {rs : List Rectangle}
    (h : mergeOnce rs = none) : mergeListData fuel rs = rs := by
  cases fuel <;> simp [mergeListData, h]

lemma mergeList_idem (rs : List Rectangle) : mergeList (mergeList rs) = mergeList rs := by
  have hfix : mergeOnce (mergeList rs) = none :=
    mergeListData_fixed (le_refl rs.length)
  unfold mergeList
  exact mergeListData_of_none hfix

/-- C6: `mergeRectangles` is idempotent: re-running it on an already-merged
fingerprint→rectangle-list dictionary is a no-op. -/
theorem c6_mergeRectangles_idempotent (G : Dictionary Fingerprint (List Rectangle)) :
    Colorize.mergeRectangles (Colorize.mergeRectangles G) = Colorize.mergeRectangles G := by
  unfold Colorize.mergeRectangles
  rw [List.map_map]
  apply List.map_congr_left
  intro e _
  simp [mergeList_idem]

/-!  ### Fix generator and filters (`Colorize.generate_proposed_fixes` and
the filtering passes)  -/

/-- The number of cells of a rectangle, as a score ingredient. -/
def rectCellCount (r : Rectangle) : Int :=
  (r.bottomright.x - r.upperleft.x + 1) * (r.bottomright.y - r.upperleft.y + 1)

/-- Modelled from the spec: the anomaly score of a rectangle pair (§4.5),
inversely related to the smaller rectangle's cell count relative to its
neighbour (a lone cell breaking a large block scores highest); larger means
more suspicious.  The exact formula is a tuning choice (§9). -/
def fix_score (a b : Rectangle) : Int :=
  max (rectCellCount a) (rectCellCount b) / min (rectCellCount a) (rectCellCount b)

/-- Geometric adjacency-or-overlap of two sheet-local rectangles. -/
def rectAdjacentOrOverlapping (a b : Rectangle) : Bool :=
  decide (a.upperleft.z = b.upperleft.z) &&
  decide (b.upperleft.x ≤ a.bottomright.x + 1) && decide (a.upperleft.x ≤ b.bottomright.x + 1) &&
  decide (b.upperleft.y ≤ a.bottomright.y + 1) && decide (a.upperleft.y ≤ b.bottomright.y + 1)

/-- Modelled from the spec: `Colorize.generate_proposed_fixes` (§4.5): a
candidate fix for every adjacent-or-overlapping pair of rectangles attached
to different fingerprints, scored by `fix_score`. -/
def Colorize.generate_proposed_fixes (groups : Dictionary Fingerprint (List Rectangle)) :
    List ProposedFix :=
  groups.flatMap (fun e1 =>
    groups.flatMap (fun e2 =>
      if e1.1 = e2.1 then []
      else e1.2.flatMap (fun r1 =>
        e2.2.filterMap (fun r2 =>
          if rectAdjacentOrOverlapping r1 r2 then some ⟨fix_score r1 r2, r1, r2⟩ else none))))

/-- Order-independent equality of two fixes on their rectangle pairs
(spec §3: swapping rect1/rect2 yields an equal fix for deduplication). -/
def pairEqual (a b : ProposedFix) : Bool :=
  (decide (a.rect1 = b.rect1) && decide (a.rect2 = b.rect2)) ||
  (decide (a.rect1 = b.rect2) && decide (a.rect2 = b.rect1))

/-- Accumulator loop of the duplicate filter: `seen` holds the fixes kept so
far. -/
def filterDupAux : List ProposedFix → List ProposedFix → List ProposedFix
  | _, [] => []
  | seen, f :: rest =>
    if seen.any (fun g => pairEqual g f) then filterDupAux seen rest
    else f :: filterDupAux (seen ++ [f]) rest

/-- Modelled from the spec: `Colorize.filterDuplicateFixes` (§4.5): drop the
fixes that are pair-equal to an earlier fix, keeping first occurrences. -/
def Colorize.filterDuplicateFixes (fixes : List ProposedFix) : List ProposedFix :=
  filterDupAux [] fixes

/-- Declarative reading of the claim: a fix is kept exactly when no fix
earlier in the original list is pair-equal to it, first occurrences retained
in their original order (`pre` is the already-scanned prefix). -/
def dedupSpecData : List ProposedFix → List ProposedFix → List ProposedFix
  | _, [] => []
  | pre, f :: rest =>
    if pre.any (fun g => pairEqual g f) then dedupSpecData (pre ++ [f]) rest
    else f :: dedupSpecData (pre ++ [f]) rest

/-- The fixes of `l` that are not pair-equal to any earlier fix of `l`. -/
def dedupSpec (l : List ProposedFix) : List ProposedFix := dedupSpecData [] l

lemma pairEqual_iff {a b : ProposedFix} :
    pairEqual a b = true ↔
      (a.rect1 = b.rect1 ∧ a.rect2 = b.rect2) ∨ (a.rect1 = b.rect2 ∧ a.rect2 = b.rect1) := by
  simp [pairEqual]

lemma pairEqual_symm (a b : ProposedFix) : pairEqual a b = pairEqual b a := by
  rw [Bool.eq_iff_iff, pairEqual_iff, pairEqual_iff]
  constructor <;> rintro (⟨h1, h2⟩ | ⟨h1, h2⟩)
  · exact Or.inl ⟨h1.symm, h2.symm⟩
  · exact Or.inr ⟨h2.symm, h1.symm⟩
  · exact Or.inl ⟨h1.symm, h2.symm⟩
  · exact Or.inr ⟨h2.symm, h1.symm⟩

lemma pairEqual_trans {a b c : ProposedFix} (hab : pairEqual a b = true)
    (hbc : pairEqual b c = true) : pairEqual a c = true := by
  rw [pairEqual_iff] at *
  rcases hab with ⟨h1, h2⟩ | ⟨h1, h2⟩ <;> rcases hbc with ⟨h3, h4⟩ | ⟨h3, h4⟩
  · exact Or.inl ⟨h1.trans h3, h2.trans h4⟩
  · exact Or.inr ⟨h1.trans h3, h2.trans h4⟩
  · exact Or.inr ⟨h1.trans h4, h2.trans h3⟩
  · exact Or.inl ⟨h1.trans h4, h2.trans h3⟩

lemma filterDupAux_eq (rest : List ProposedFix) :
    ∀ seen pre : List ProposedFix,
      (∀ f, seen.any (fun g => pairEqual g f) = pre.any (fun g => pairEqual g f)) →
      filterDupAux seen rest = dedupSpecData pre rest := by
  induction rest with
  | nil => intro seen pre _; simp [filterDupAux, dedupSpecData]
  | cons f rest ih =>
    intro seen pre hinv
    unfold filterDupAux dedupSpecData
    rw [hinv f]
    rcases hc : pre.any (fun g => pairEqual g f) with _ | _
    · simp only [Bool.false_eq_true, if_false]
      have hinv' : ∀ f', (seen ++ [f]).any (fun g => pairEqual g f') =
          (pre ++ [f]).any (fun g => pairEqual g f') := by
        intro f'
        simp only [List.any_append, List.any_cons, List.any_nil, hinv f']
      exact congrArg (fun l => f :: l) (ih (seen ++ [f]) (pre ++ [f]) hinv')
    · simp only [if_pos rfl]
      have hinv' : ∀ f', seen.any (fun g => pairEqual g f') =
          (pre ++ [f]).any (fun g => pairEqual g f') := by
        intro f'
        simp only [List.any_append, List.any_cons, List.any_nil, Bool.or_false]
        rcases hff : pairEqual f f' with _ | _
        · simp [hinv f']
        · simp only [Bool.or_true]
          rw [List.any_eq_true] at hc
          obtain ⟨g, hg, hgf⟩ := hc
          rw [hinv f', List.any_eq_true]
          exact ⟨g, hg, pairEqual_trans hgf hff⟩
      exact ih seen (pre ++ [f]) hinv'

/-- C7: `filterDuplicateFixes` removes exactly the fixes pair-equal to an
earlier fix of the list, preserving first occurrences in the original order,
and pair-equality is order-independent in the two rectangles. -/
theorem c7_filterDuplicateFixes_characterized (l : List ProposedFix) :
    Colorize.filterDuplicateFixes l = dedupSpec l ∧
    (∀ a b : ProposedFix, pairEqual a b = pairEqual b a) ∧
    (∀ (s t : Int) (r1 r2 : Rectangle),
      pairEqual ⟨s, r1, r2⟩ ⟨t, r2, r1⟩ = true) := by
  refine ⟨?_, pairEqual_symm, ?_⟩
  · exact filterDupAux_eq l [] [] (fun f => rfl)
  · intro s t r1 r2
    rw [pairEqual_iff]
    right
    exact ⟨rfl, rfl⟩

/-- Modelled from the spec: `Colorize.filterFixesByUserThreshold` (§4.5):
keep exactly the fixes whose score is at least the reporting threshold. -/
def Colorize.filterFixesByUserThreshold (fixes : List ProposedFix) (threshold : Int) :
    List ProposedFix :=
  fixes.filter (fun pf => decide (threshold ≤ pf.score))

/-- C5: raising the reporting threshold never increases the surviving fixes:
the survivors at the higher threshold are a subset of those at the lower one,
and in particular no more numerous. -/
theorem c5_filterFixesByUserThreshold_monotone (fixes : List ProposedFix) (t1 t2 : Int)
    (h : t1 ≤ t2) :
    (∀ pf ∈ Colorize.filterFixesByUserThreshold fixes t2,
      pf ∈ Colorize.filterFixesByUserThreshold fixes t1) ∧
    (Colorize.filterFixesByUserThreshold fixes t2).length ≤
      (Colorize.filterFixesByUserThreshold fixes t1).length := by
  have himp : ∀ pf : ProposedFix,
      decide (t2 ≤ pf.score) = true → decide (t1 ≤ pf.score) = true := by
    intro pf hpf
    rw [decide_eq_true_eq] at *
    exact le_trans h hpf
  constructor
  · intro pf hpf
    rw [Colorize.filterFixesByUserThreshold, List.mem_filter] at *
    exact ⟨hpf.1, himp pf hpf.2⟩
  · exact List.Sublist.length_le (List.monotone_filter_right fixes himp)

def c5SampleRect1 : Rectangle := ⟨⟨1, 1, 0⟩, ⟨1, 1, 0⟩⟩

def c5SampleRect2 : Rectangle := ⟨⟨2, 1, 0⟩, ⟨2, 1, 0⟩⟩

def c5SampleFix : ProposedFix := ⟨3, c5SampleRect1, c5SampleRect2⟩

/-- C5 witness: at thresholds 1 ≤ 2 and a single fix of score 3, the theorem
applies and the fix surviving threshold 2 also survives threshold 1. -/
theorem c5_witness :
    c5SampleFix ∈ Colorize.filterFixesByUserThreshold [c5SampleFix] 1 ∧
    (Colorize.filterFixesByUserThreshold [c5SampleFix] 2).length ≤
      (Colorize.filterFixesByUserThreshold [c5SampleFix] 1).length := by
  have h := c5_filterFixesByUserThreshold_monotone [c5SampleFix] 1 2 (by norm_num)
  exact ⟨h.1 c5SampleFix (by decide), h.2⟩

/-- Whether the style hashes of the representative (upper-left) cells of a
fix's two rectangles agree in the style dictionary. -/
def sameStyleHash (styles : Dictionary ExceLintVector String) (pf : ProposedFix) : Bool :=
  decide (Dictionary.get styles (pf.rect1.upperleft.asKey) =
    Dictionary.get styles (pf.rect2.upperleft.asKey))

/-- Modelled from the spec: `Colorize.adjustProposedFixesByStyleHash` (§4.5):
compare the style hashes of the representative cells of the two rectangles;
when they differ, reduce the fix's score (one unit of score here — the spec
fixes only the direction).  The source mutates the list in place; following
the design note of §9 the embedding is the equivalent pure transform. -/
def Colorize.adjustProposedFixesByStyleHash (fixes : List ProposedFix)
    (styles : Dictionary ExceLintVector String) : List ProposedFix :=
  fixes.map (fun pf =>
    if sameStyleHash styles pf then pf else { pf with score := pf.score - 1 })

lemma mem_zip_map {A B : Type} {l : List A} {f : A → B} {p : A × B}
    (hp : p ∈ l.zip (l.map f)) : p.2 = f p.1 := by
  induction l with
  | nil => simp at hp
  | cons a t ih =>
    simp only [List.map_cons, List.zip_cons_cons, List.mem_cons] at hp
    rcases hp with h | h
    · rw [h]
    · exact ih h

/-- C8: the style adjustment neither adds nor removes entries; each fix keeps
its rectangles, keeps its score when the representative style hashes agree,
and gets a strictly smaller (less suspicious) score when they differ. -/
theorem c8_adjustProposedFixesByStyleHash (fixes : List ProposedFix)
    (styles : Dictionary ExceLintVector String) :
    (Colorize.adjustProposedFixesByStyleHash fixes styles).length = fixes.length ∧
    ∀ p ∈ fixes.zip (Colorize.adjustProposedFixesByStyleHash fixes styles),
      p.2.rect1 = p.1.rect1 ∧ p.2.rect2 = p.1.rect2 ∧
      (sameStyleHash styles p.1 = true → p.2.score = p.1.score) ∧
      (sameStyleHash styles p.1 = false → p.2.score < p.1.score) := by
  constructor
  · simp [Colorize.adjustProposedFixesByStyleHash]
  · intro p hp
    unfold Colorize.adjustProposedFixesByStyleHash at hp
    have h3 : p.2 = if sameStyleHash styles p.1 then p.1
        else { p.1 with score := p.1.score - 1 } := mem_zip_map hp
    rcases hs : sameStyleHash styles p.1 with _ | _ <;> rw [hs] at h3 <;>
      simp only [Bool.false_eq_true, if_false, if_true] at h3 <;> rw [h3]
    · refine ⟨rfl, rfl, ?_, ?_⟩
      · intro hcontra
        exact absurd hcontra (by simp)
      · intro _
        show p.1.score - 1 < p.1.score
        omega
    · refine ⟨rfl, rfl, fun _ => rfl, ?_⟩
      intro hcontra
      exact absurd hcontra (by simp)

def c8SampleFix : ProposedFix := ⟨5, ⟨⟨1, 1, 0⟩, ⟨1, 1, 0⟩⟩, ⟨⟨2, 1, 0⟩, ⟨2, 1, 0⟩⟩⟩

def c8SampleStyles : Dictionary ExceLintVector String :=
  [(⟨1, 1, 0⟩, "styleA"), (⟨2, 1, 0⟩, "styleB")]

/-- C8 witness: with differing representative style hashes, the theorem
applies at a concrete fix of score 5 and yields the strict score decrease. -/
theorem c8_witness :
    ((c8SampleFix, ({ c8SampleFix with score := 4 } : ProposedFix)).2.rect1 =
        (c8SampleFix, ({ c8SampleFix with score := 4 } : ProposedFix)).1.rect1) ∧
      ((c8SampleFix, ({ c8SampleFix with score := 4 } : ProposedFix)).2.rect2 =
        (c8SampleFix, ({ c8SampleFix with score := 4 } : ProposedFix)).1.rect2) ∧
      (sameStyleHash c8SampleStyles c8SampleFix = true →
        ((c8SampleFix, ({ c8SampleFix with score := 4 } : ProposedFix)).2.score =
          c8SampleFix.score)) ∧
      (sameStyleHash c8SampleStyles c8SampleFix = false →
        ((c8SampleFix, ({ c8SampleFix with score := 4 } : ProposedFix)).2.score <
          c8SampleFix.score)) :=
  (c8_adjustProposedFixesByStyleHash [c8SampleFix] c8SampleStyles).2
    (c8SampleFix, { c8SampleFix with score := 4 }) (by decide)

/-- Modelled from the spec: `Colorize.filterFix` (§4.5): the final heuristic
veto.  With representative formulas available it suppresses, in strict mode,
fixes where either side is a constant-only (reference-free) region, and
otherwise returns the fix unchanged; without representative formula
information the fix is suppressed. -/
def Colorize.filterFix (pf : ProposedFix) (rectf : Rectangle → RectInfo) (strict : Bool) :
    Option ProposedFix :=
  match (rectf pf.rect1).formula, (rectf pf.rect2).formula with
  | some f1, some f2 =>
    if strict && ((extractRefs f1).isEmpty || (extractRefs f2).isEmpty) then none
    else some pf
  | _, _ => none

lemma filterFix_eq_some {pf pf' : ProposedFix} {rectf : Rectangle → RectInfo} {b : Bool}
    (h : Colorize.filterFix pf rectf b = some pf') : pf' = pf := by
  unfold Colorize.filterFix at h
  split at h
  · split_ifs at h
    · simp only [Option.some.injEq] at h
      exact h.symm
  · exact absurd h (by simp)
/-!  ### Fat cross and the staged incremental analysis
(`incrementalFatCrossAnalysis`, App.tsx lines 82-196)  -/

/-- The four directional arms around a target cell. -/
structure FatCross where
  up : Range
  left : Range
  down : Range
  right : Range

/-- Modelled from the spec: `RectangleUtils.findFatCross` (§4.6): the four
arms covering the bounding range around the target — the band above the
target row, the target-row cells strictly left of the target, the band below,
and the target-row cells from the target to the right edge.  When the target
sits on an edge the corresponding arm degenerates to an empty range
(inverted corners, which expand to no cells). -/
def RectangleUtils.findFatCross (r : Range) (addr : Address) : FatCross :=
  { up := ⟨r.sheet, r.upperLeftColumn, r.upperLeftRow, r.bottomRightColumn, addr.row - 1⟩
    left := ⟨r.sheet, r.upperLeftColumn, addr.row, addr.column - 1, addr.row⟩
    down := ⟨r.sheet, r.upperLeftColumn, addr.row + 1, r.bottomRightColumn, r.bottomRightRow⟩
    right := ⟨r.sheet, addr.column, addr.row, r.bottomRightColumn, addr.row⟩ }

/-- Embeds the `OldColor` record of App.tsx: a fill color and its range. -/
structure OldColor where
  color : String
  range : Range
deriving DecidableEq

/-- The payload of `Possibly`/`Definitely` results: the proposed fixes and
the saved old colors. -/
abbrev Payload := List ProposedFix × List OldColor

/-- The host collaborator of the analysis (spec §6): the raw formula grid the
host returns for the bounding range, per-cell style hashes, per-range fill
colors, and the configured reporting threshold
(`Config.reportingThreshold`). -/
structure Host where
  formulas : List (List String)
  styleAt : Int → Int → String
  fillColorAt : Range → String
  reportingThreshold : Int

/-- Embeds `App.colorRange` (App.tsx lines 570-598): records the range's
previous fill color as reported by the host; the new color is host I/O. -/
def App.colorRange (host : Host) (r : Range) (_color : String) : OldColor :=
  ⟨host.fillColorAt r, r⟩

/-- Embeds `App.getFormattingFromRange` (App.tsx lines 523-561): one style
hash per cell of the range, keyed by 1-based address; the hash value itself
is host data. -/
def App.getFormattingFromRange (host : Host) (r : Range) : Dictionary ExceLintVector String :=
  (intRange r.upperLeftRow r.bottomRightRow).foldl (fun d row =>
    (intRange r.upperLeftColumn r.bottomRightColumn).foldl (fun d2 col =>
      d2.put (ExceLintVector.asKey ⟨col, row, 0⟩) (host.styleAt col row)) d) []

/-- An alias kept for the call sites of App.tsx, which reach the reference
extractor through the `Colorize` facade. -/
def Colorize.relativeFormulaRefs (fs : Dictionary ExceLintVector String) :
    Dictionary ExceLintVector (List ExceLintVector) :=
  Analysis.relativeFormulaRefs fs

/-- The state threaded through the generator's loop (App.tsx lines 102-114):
accumulated rectangles by fingerprint, accumulated styles, saved old colors,
and the current stage's surviving proposed fixes. -/
structure AnalysisState where
  rects : Dictionary Fingerprint (List Rectangle)
  styles : Dictionary ExceLintVector String
  old_colors : List OldColor
  proposed_fixes : List ProposedFix
deriving DecidableEq

/-- The arm's formula dictionary (App.tsx lines 121-127): the pre-loaded
range formulas restricted to the addresses of the arm's rectangle. -/
def stageFormulas (all_formulas : Dictionary ExceLintVector String) (arm : Range) :
    Dictionary ExceLintVector String :=
  let fAddrs := arm.rectangle.expand
  let fAddrDict : Dictionary ExceLintVector ExceLintVector :=
    fAddrs.foldl (fun acc f => acc.put f.asKey f) []
  all_formulas.keyFilter (fun k => fAddrDict.contains k)

/-- The accumulated rectangle state after one stage (App.tsx lines 133-144):
references → fingerprints → groups for the arm, merged into the running
state. -/
def stageRects (all_formulas : Dictionary ExceLintVector String) (arm : Range)
    (rects0 : Dictionary Fingerprint (List Rectangle)) :
    Dictionary Fingerprint (List Rectangle) :=
  let fs := stageFormulas all_formulas arm
  let fRefs := Colorize.relativeFormulaRefs fs
  let fps := Colorize.fingerprints fRefs
  let stepRects := Colorize.identify_groups fps
  Colorize.mergeRectangles (Colorize.mergeRectangleDictionaries stepRects rects0)

/-- The accumulated styles after one stage (App.tsx lines 129-131). -/
def stageStyles (host : Host) (use_styles : Bool) (arm : Range)
    (styles0 : Dictionary ExceLintVector String) : Dictionary ExceLintVector String :=
  styles0.merge (if use_styles then App.getFormattingFromRange host arm else [])

/-- The accumulated old colors after one stage (App.tsx lines 117-119). -/
def stageOldColors (host : Host) (use_colors_for_debugging : Bool) (debug_color : String)
    (arm : Range) (old0 : List OldColor) : List OldColor :=
  if use_colors_for_debugging then old0 ++ [App.colorRange host arm debug_color] else old0

/-- The stage's surviving proposed fixes (App.tsx lines 146-173): generate,
deduplicate, keep only fixes including the target, apply the reporting
threshold, adjust by style, and run the final heuristic veto. -/
def stageFixes (host : Host) (all_formulas : Dictionary ExceLintVector String)
    (addr : Address) (rects : Dictionary Fingerprint (List Rectangle))
    (styles : Dictionary ExceLintVector String) : List ProposedFix :=
  let pfs := Colorize.generate_proposed_fixes rects
  let pfs2 := Colorize.filterDuplicateFixes pfs
  let pfs3 := pfs2.filter (fun pf => pf.includesCellAt addr)
  let pfs4 := Colorize.filterFixesByUserThreshold pfs3 host.reportingThreshold
  let pfs5 := Colorize.adjustProposedFixesByStyleHash pfs4 styles
  let rectf := fun (rect : Rectangle) =>
    RectInfo.mk rect (all_formulas.get rect.upperleft.asKey)
  pfs5.filterMap (fun fix => Colorize.filterFix fix rectf true)

/-- One loop iteration of `incrementalFatCrossAnalysis` (App.tsx lines
115-173, everything but the yield), assembled from the per-field stage
functions above. -/
def analysisStep (host : Host) (all_formulas : Dictionary ExceLintVector String)
    (addr : Address) (use_colors_for_debugging use_styles : Bool)
    (debug_color : String) (arm : Range) (st : AnalysisState) : AnalysisState :=
  ⟨stageRects all_formulas arm st.rects,
   stageStyles host use_styles arm st.styles,
   stageOldColors host use_colors_for_debugging debug_color arm st.old_colors,
   stageFixes host all_formulas addr (stageRects all_formulas arm st.rects)
     (stageStyles host use_styles arm st.styles)⟩

/-- The conclusive verdict computed from a stage state (App.tsx lines
175-182 and 189-195): `no` exactly when no proposed fixes survive, otherwise
`definitely` with the surviving fixes and the old colors. -/
def conclusiveResult (st : AnalysisState) : Maybe Payload :=
  if st.proposed_fixes.isEmpty then Maybe.no
  else Maybe.definitely (st.proposed_fixes, st.old_colors)

/-- The generator loop of `incrementalFatCrossAnalysis` (App.tsx lines
115-188): one iteration per remaining (debug-color, arm) pair; the last
iteration yields the conclusive result (`no` exactly when no fixes survive),
the earlier ones yield `possibly`. -/
def analysisLoop (host : Host) (all_formulas : Dictionary ExceLintVector String)
    (addr : Address) (use_colors_for_debugging use_styles : Bool) :
    List (String × Range) → AnalysisState → List (Maybe Payload) × AnalysisState
  | [], st => ([], st)
  | (dc, arm) :: rest, st =>
    let st' := analysisStep host all_formulas addr use_colors_for_debugging use_styles dc arm st
    let y : Maybe Payload :=
      if rest.isEmpty then conclusiveResult st'
      else Maybe.possibly (st'.proposed_fixes, st'.old_colors)
    let res := analysisLoop host all_formulas addr use_colors_for_debugging use_styles rest st'
    (y :: res.1, res.2)

/-- The debug colors of App.tsx line 101. -/
def debug_colors : List String := ["#CBAACB", "#FFCCB6", "#ABDEE6", "#F3B0C3"]

/-- The pre-loaded formula dictionary of the whole bounding range (App.tsx
line 105). -/
def analysisFormulas (host : Host) (rng : Range) : Dictionary ExceLintVector String :=
  App.getFormulasFromRange host.formulas rng.upperLeftColumn rng.upperLeftRow

/-- Embeds `incrementalFatCrossAnalysis` (App.tsx lines 82-196) as a pure
function from the host data to the list of the generator's yielded results
together with its final return value. -/
def incrementalFatCrossAnalysis (host : Host) (rng : Range) (addr : Address)
    (use_colors_for_debugging use_styles : Bool) :
    List (Maybe Payload) × Maybe Payload :=
  let fc := RectangleUtils.findFatCross rng addr
  let steps := [fc.up, fc.left, fc.down, fc.right]
  let all_formulas := analysisFormulas host rng
  let res := analysisLoop host all_formulas addr use_colors_for_debugging use_styles
    (debug_colors.zip steps) ⟨[], [], [], []⟩
  (res.1, conclusiveResult res.2)

/-- The four fat-cross arms in stage order: up, left, down, right. -/
def stageArms (rng : Range) (addr : Address) : List Range :=
  [(RectangleUtils.findFatCross rng addr).up, (RectangleUtils.findFatCross rng addr).left,
   (RectangleUtils.findFatCross rng addr).down, (RectangleUtils.findFatCross rng addr).right]

/-- The analysis state reached after the first `n` stages (0 = initial):
stage `n + 1` applies `analysisStep` for the `n`-th (debug-color, arm) pair
to the state after `n` stages. -/
def stageStateAfter (host : Host) (rng : Range) (addr : Address) (ucd us : Bool) :
    Nat → AnalysisState
  | 0 => ⟨[], [], [], []⟩
  | n + 1 =>
    match (debug_colors.zip (stageArms rng addr)).get? n with
    | some p => analysisStep host (analysisFormulas host rng)
        addr ucd us p.1 p.2 (stageStateAfter host rng addr ucd us n)
    | none => stageStateAfter host rng addr ucd us n

/-- The payload (surviving fixes, old colors) visible after `n` stages. -/
def stagePayload (host : Host) (rng : Range) (addr : Address) (ucd us : Bool)
    (n : Nat) : Payload :=
  ((stageStateAfter host rng addr ucd us n).proposed_fixes,
    (stageStateAfter host rng addr ucd us n).old_colors)

lemma zip_arms (rng : Range) (addr : Address) :
    debug_colors.zip (stageArms rng addr) =
      [("#CBAACB", (RectangleUtils.findFatCross rng addr).up),
       ("#FFCCB6", (RectangleUtils.findFatCross rng addr).left),
       ("#ABDEE6", (RectangleUtils.findFatCross rng addr).down),
       ("#F3B0C3", (RectangleUtils.findFatCross rng addr).right)] := rfl

set_option maxHeartbeats 1000000 in
lemma analysisLoop_four (host : Host) (af : Dictionary ExceLintVector String)
    (addr : Address) (ucd us : Bool) (c1 c2 c3 c4 : String) (a1 a2 a3 a4 : Range)
    (st : AnalysisState) :
    analysisLoop host af addr ucd us [(c1, a1), (c2, a2), (c3, a3), (c4, a4)] st =
      ([Maybe.possibly ((analysisStep host af addr ucd us c1 a1 st).proposed_fixes,
          (analysisStep host af addr ucd us c1 a1 st).old_colors),
        Maybe.possibly ((analysisStep host af addr ucd us c2 a2
            (analysisStep host af addr ucd us c1 a1 st)).proposed_fixes,
          (analysisStep host af addr ucd us c2 a2
            (analysisStep host af addr ucd us c1 a1 st)).old_colors),
        Maybe.possibly ((analysisStep host af addr ucd us c3 a3
            (analysisStep host af addr ucd us c2 a2
              (analysisStep host af addr ucd us c1 a1 st))).proposed_fixes,
          (analysisStep host af addr ucd us c3 a3
            (analysisStep host af addr ucd us c2 a2
              (analysisStep host af addr ucd us c1 a1 st))).old_colors),
        conclusiveResult (analysisStep host af addr ucd us c4 a4
          (analysisStep host af addr ucd us c3 a3
            (analysisStep host af addr ucd us c2 a2
              (analysisStep host af addr ucd us c1 a1 st))))],
       analysisStep host af addr ucd us c4 a4
        (analysisStep host af addr ucd us c3 a3
          (analysisStep host af addr ucd us c2 a2
            (analysisStep host af addr ucd us c1 a1 st)))) := rfl

set_option maxHeartbeats 1000000 in
lemma incremental_eq (host : Host) (rng : Range) (addr : Address) (ucd us : Bool) :
    incrementalFatCrossAnalysis host rng addr ucd us =
      ((analysisLoop host (analysisFormulas host rng) addr ucd us
          (debug_colors.zip (stageArms rng addr)) ⟨[], [], [], []⟩).1,
       conclusiveResult (analysisLoop host (analysisFormulas host rng) addr ucd us
          (debug_colors.zip (stageArms rng addr)) ⟨[], [], [], []⟩).2) := rfl

set_option maxHeartbeats 1000000 in
lemma incremental_unfold (host : Host) (rng : Range) (addr : Address) (ucd us : Bool) :
    incrementalFatCrossAnalysis host rng addr ucd us =
      ([Maybe.possibly (stagePayload host rng addr ucd us 1),
        Maybe.possibly (stagePayload host rng addr ucd us 2),
        Maybe.possibly (stagePayload host rng addr ucd us 3),
        conclusiveResult (stageStateAfter host rng addr ucd us 4)],
       conclusiveResult (stageStateAfter host rng addr ucd us 4)) := by
  have h1 : analysisStep host (analysisFormulas host rng) addr ucd us "#CBAACB"
      (RectangleUtils.findFatCross rng addr).up ⟨[], [], [], []⟩ =
      stageStateAfter host rng addr ucd us 1 := rfl
  have h2 : analysisStep host (analysisFormulas host rng) addr ucd us "#FFCCB6"
      (RectangleUtils.findFatCross rng addr).left (stageStateAfter host rng addr ucd us 1) =
      stageStateAfter host rng addr ucd us 2 := rfl
  have h3 : analysisStep host (analysisFormulas host rng) addr ucd us "#ABDEE6"
      (RectangleUtils.findFatCross rng addr).down (stageStateAfter host rng addr ucd us 2) =
      stageStateAfter host rng addr ucd us 3 := rfl
  have h4 : analysisStep host (analysisFormulas host rng) addr ucd us "#F3B0C3"
      (RectangleUtils.findFatCross rng addr).right (stageStateAfter host rng addr ucd us 3) =
      stageStateAfter host rng addr ucd us 4 := rfl
  rw [incremental_eq, zip_arms]
  rw [analysisLoop_four host (analysisFormulas host rng) addr ucd us
    "#CBAACB" "#FFCCB6" "#ABDEE6" "#F3B0C3"
    (RectangleUtils.findFatCross rng addr).up (RectangleUtils.findFatCross rng addr).left
    (RectangleUtils.findFatCross rng addr).down (RectangleUtils.findFatCross rng addr).right
    ⟨[], [], [], []⟩]
  rw [h1, h2, h3, h4]
  rfl

/-- C1: the staged analysis processes exactly four stages, one per fat-cross
arm in the fixed order up, left, down, right; the first three stages yield
`possibly` results, and the fourth stage yields `no` if and only if no
proposed fix survives that stage's filtering, and otherwise yields
`definitely` with the surviving fix list. -/
theorem c1_four_staged_analysis (host : Host) (rng : Range) (addr : Address) (ucd us : Bool) :
    stageArms rng addr = [(RectangleUtils.findFatCross rng addr).up,
      (RectangleUtils.findFatCross rng addr).left,
      (RectangleUtils.findFatCross rng addr).down,
      (RectangleUtils.findFatCross rng addr).right] ∧
    (incrementalFatCrossAnalysis host rng addr ucd us).1 =
      [Maybe.possibly (stagePayload host rng addr ucd us 1),
       Maybe.possibly (stagePayload host rng addr ucd us 2),
       Maybe.possibly (stagePayload host rng addr ucd us 3),
       conclusiveResult (stageStateAfter host rng addr ucd us 4)] ∧
    ((incrementalFatCrossAnalysis host rng addr ucd us).1.getLast? = some Maybe.no ↔
      (stageStateAfter host rng addr ucd us 4).proposed_fixes = []) ∧
    ((stageStateAfter host rng addr ucd us 4).proposed_fixes ≠ [] →
      (incrementalFatCrossAnalysis host rng addr ucd us).1.getLast? =
        some (Maybe.definitely (stagePayload host rng addr ucd us 4))) := by
  refine ⟨rfl, (congrArg Prod.fst (incremental_unfold host rng addr ucd us)), ?_, ?_⟩ <;>
    rw [congrArg Prod.fst (incremental_unfold host rng addr ucd us)] <;>
      rcases he : (stageStateAfter host rng addr ucd us 4).proposed_fixes with _ | ⟨f, fs⟩
  · simp [conclusiveResult, he]
  · simp [conclusiveResult, he, stagePayload]
  · simp [he]
  · simp [conclusiveResult, he, stagePayload]

/-- C10: the value the generator returns after its fourth yield is exactly
the fourth yielded result: `no` precisely when the fourth stage's surviving
fix list is empty, and otherwise `definitely` with the same fixes and old
colors, so a caller consuming the return value instead of the last yield
observes the same answer. -/
theorem c10_return_agrees_with_last_yield (host : Host) (rng : Range) (addr : Address)
    (ucd us : Bool) :
    (incrementalFatCrossAnalysis host rng addr ucd us).1.getLast? =
      some (incrementalFatCrossAnalysis host rng addr ucd us).2 := by
  simp only [incremental_unfold host rng addr ucd us]
  rfl

/-- Whether every fix of a yielded stage result includes the target cell
(`no` results carry no fixes). -/
def payloadFixesOk (addr : Address) (m : Maybe Payload) : Bool :=
  match m with
  | Maybe.no => true
  | Maybe.possibly p => p.1.all (fun pf => pf.includesCellAt addr)
  | Maybe.definitely p => p.1.all (fun pf => pf.includesCellAt addr)

/-- Whether every fix of every yielded stage result includes the target. -/
def yieldedFixesIncludeTarget (ys : List (Maybe Payload)) (addr : Address) : Bool :=
  ys.all (payloadFixesOk addr)

lemma stageFixes_all_include (host : Host) (af : Dictionary ExceLintVector String)
    (addr : Address) (rects : Dictionary Fingerprint (List Rectangle))
    (styles : Dictionary ExceLintVector String) :
    (stageFixes host af addr rects styles).all (fun pf => pf.includesCellAt addr) = true := by
  rw [List.all_eq_true]
  intro pf' hpf'
  unfold stageFixes at hpf'
  simp only at hpf'
  obtain ⟨fix, hfix, hsome⟩ := List.mem_filterMap.mp hpf'
  rw [filterFix_eq_some hsome]
  unfold Colorize.adjustProposedFixesByStyleHash at hfix
  obtain ⟨a, ha, hfa⟩ := List.mem_map.mp hfix
  have hinc : fix.includesCellAt addr = a.includesCellAt addr := by
    rw [← hfa]
    split <;> rfl
  rw [hinc]
  unfold Colorize.filterFixesByUserThreshold at ha
  have ha2 := (List.mem_filter.mp ha).1
  exact (List.mem_filter.mp ha2).2

lemma analysisStep_fixes_include (host : Host) (af : Dictionary ExceLintVector String)
    (addr : Address) (ucd us : Bool) (dc : String) (arm : Range) (st : AnalysisState) :
    ((analysisStep host af addr ucd us dc arm st).proposed_fixes.all
      (fun pf => pf.includesCellAt addr)) = true :=
  stageFixes_all_include host af addr _ _

lemma conclusiveResult_ok (addr : Address) (st : AnalysisState)
    (h : st.proposed_fixes.all (fun pf => pf.includesCellAt addr) = true) :
    payloadFixesOk addr (conclusiveResult st) = true := by
  unfold conclusiveResult
  split_ifs <;> simp [payloadFixesOk, h]

lemma analysisLoop_yields_include (host : Host) (af : Dictionary ExceLintVector String)
    (addr : Address) (ucd us : Bool) (pairs : List (String × Range)) :
    ∀ st : AnalysisState,
      yieldedFixesIncludeTarget (analysisLoop host af addr ucd us pairs st).1 addr = true := by
  induction pairs with
  | nil => intro st; rfl
  | cons p rest ih =>
    intro st
    rcases p with ⟨dc, arm⟩
    unfold analysisLoop yieldedFixesIncludeTarget
    simp only [List.all_cons]
    rw [Bool.and_eq_true]
    constructor
    · rcases hre : rest.isEmpty with _ | _
      · simp only [Bool.false_eq_true, if_false]
        exact analysisStep_fixes_include host af addr ucd us dc arm st
      · simp only [if_pos rfl]
        exact conclusiveResult_ok addr _
          (analysisStep_fixes_include host af addr ucd us dc arm st)
    · exact ih _

/-- C4: every proposed fix contained in any result yielded by any stage of
the staged incremental analysis includes the target cell: at least one of the
fix's two rectangles contains the target address. -/
theorem c4_yielded_fixes_include_target (host : Host) (rng : Range) (addr : Address)
    (ucd us : Bool) :
    yieldedFixesIncludeTarget (incrementalFatCrossAnalysis host rng addr ucd us).1 addr =
      true := by
  rw [congrArg Prod.fst (incremental_eq host rng addr ucd us)]
  exact analysisLoop_yields_include host (analysisFormulas host rng) addr ucd us _ _

/-- A host as it appears for a degenerate invocation: the sheet holds one
plain number, no formulas. -/
def c9Host : Host := ⟨[["1"]], fun _ _ => "", fun _ => "", 0⟩

/-- A one-cell bounding range. -/
def c9Rng : Range := ⟨"Sheet1", 1, 1, 1, 1⟩

/-- A target address outside that bounding range. -/
def c9OutsideAddr : Address := ⟨"Sheet1", 5, 5⟩

/-- An empty (inverted-corner) bounding range. -/
def c9EmptyRng : Range := ⟨"Sheet1", 2, 2, 1, 1⟩

/-- A host whose formula grid for the empty range is empty. -/
def c9EmptyHost : Host := ⟨[], fun _ _ => "", fun _ => "", 0⟩

/-- C9 (counterexample): on degenerate geometric inputs — a target address
outside the bounding range, and an empty bounding range — the staged
analysis does not fail with any distinguished error condition: it completes
all four stages and yields three empty `possibly` results followed by `no`,
exactly like a successful no-anomaly analysis.  The embedded result type,
faithful to the source's `Maybe`, has no error variant at all. -/
theorem c9_counterexample_degenerate_completes :
    incrementalFatCrossAnalysis c9Host c9Rng c9OutsideAddr false false =
      ([Maybe.possibly ([], []), Maybe.possibly ([], []), Maybe.possibly ([], []), Maybe.no],
       Maybe.no) ∧
    incrementalFatCrossAnalysis c9EmptyHost c9EmptyRng c9OutsideAddr false false =
      ([Maybe.possibly ([], []), Maybe.possibly ([], []), Maybe.possibly ([], []), Maybe.no],
       Maybe.no) := by
  constructor <;> rfl

set_option maxHeartbeats 1000000 in
/-- C9 (amended): the staged incremental analysis performs no validation of
degenerate geometric inputs: whenever the host supplies no formula cells for
the bounding range — as with an empty Range — the analysis, for every target
address, completes and yields an empty-but-successful answer (three empty
`possibly` results and a final `no`), indistinguishable from a successful
no-anomaly analysis, rather than failing with a distinguished condition. -/
theorem c9_amended_no_degenerate_failure (rng : Range) (addr : Address)
    (styleAt : Int → Int → String) (fill : Range → String) (thr : Int) (us : Bool) :
    incrementalFatCrossAnalysis ⟨[], styleAt, fill, thr⟩ rng addr false us =
      ([Maybe.possibly ([], []), Maybe.possibly ([], []), Maybe.possibly ([], []), Maybe.no],
       Maybe.no) := by
  have e1 : stageStateAfter ⟨[], styleAt, fill, thr⟩ rng addr false us 1 =
      ⟨[], stageStyles ⟨[], styleAt, fill, thr⟩ us (RectangleUtils.findFatCross rng addr).up [],
        [], []⟩ := rfl
  have c2 : stageStateAfter ⟨[], styleAt, fill, thr⟩ rng addr false us 2 =
      analysisStep ⟨[], styleAt, fill, thr⟩ (analysisFormulas ⟨[], styleAt, fill, thr⟩ rng)
        addr false us "#FFCCB6" (RectangleUtils.findFatCross rng addr).left
        (stageStateAfter ⟨[], styleAt, fill, thr⟩ rng addr false us 1) := rfl
  have e2 : stageStateAfter ⟨[], styleAt, fill, thr⟩ rng addr false us 2 =
      ⟨[], stageStyles ⟨[], styleAt, fill, thr⟩ us (RectangleUtils.findFatCross rng addr).left
        (stageStyles ⟨[], styleAt, fill, thr⟩ us (RectangleUtils.findFatCross rng addr).up []),
        [], []⟩ := by
    rw [c2, e1]
    rfl
  have c3 : stageStateAfter ⟨[], styleAt, fill, thr⟩ rng addr false us 3 =
      analysisStep ⟨[], styleAt, fill, thr⟩ (analysisFormulas ⟨[], styleAt, fill, thr⟩ rng)
        addr false us "#ABDEE6" (RectangleUtils.findFatCross rng addr).down
        (stageStateAfter ⟨[], styleAt, fill, thr⟩ rng addr false us 2) := rfl
  have e3 : stageStateAfter ⟨[], styleAt, fill, thr⟩ rng addr false us 3 =
      ⟨[], stageStyles ⟨[], styleAt, fill, thr⟩ us (RectangleUtils.findFatCross rng addr).down
        (stageStyles ⟨[], styleAt, fill, thr⟩ us (RectangleUtils.findFatCross rng addr).left
          (stageStyles ⟨[], styleAt, fill, thr⟩ us (RectangleUtils.findFatCross rng addr).up [])),
        [], []⟩ := by
    rw [c3, e2]
    rfl
  have c4 : stageStateAfter ⟨[], styleAt, fill, thr⟩ rng addr false us 4 =
      analysisStep ⟨[], styleAt, fill, thr⟩ (analysisFormulas ⟨[], styleAt, fill, thr⟩ rng)
        addr false us "#F3B0C3" (RectangleUtils.findFatCross rng addr).right
        (stageStateAfter ⟨[], styleAt, fill, thr⟩ rng addr false us 3) := rfl
  have e4 : stageStateAfter ⟨[], styleAt, fill, thr⟩ rng addr false us 4 =
      ⟨[], stageStyles ⟨[], styleAt, fill, thr⟩ us (RectangleUtils.findFatCross rng addr).right
        (stageStyles ⟨[], styleAt, fill, thr⟩ us (RectangleUtils.findFatCross rng addr).down
          (stageStyles ⟨[], styleAt, fill, thr⟩ us (RectangleUtils.findFatCross rng addr).left
            (stageStyles ⟨[], styleAt, fill, thr⟩ us
              (RectangleUtils.findFatCross rng addr).up []))),
        [], []⟩ := by
    rw [c4, e3]
    rfl
  rw [incremental_unfold ⟨[], styleAt, fill, thr⟩ rng addr false us]
  simp only [stagePayload, e1, e2, e3, e4, conclusiveResult]
  rfl

/-- A concrete sheet with a genuine fingerprint anomaly at the target cell:
column B holds `=A1` in rows 1 and 2, giving the two cells different
relative-reference fingerprints. -/
def exampleHost : Host := ⟨[["1", "=A1"], ["2", "=A1"]], fun _ _ => "", fun _ => "", 0⟩

def exampleRng : Range := ⟨"Sheet1", 1, 1, 2, 2⟩

def exampleAddr : Address := ⟨"Sheet1", 2, 2⟩

/-- Sanity check that the embedded pipeline is not vacuous: on the concrete
anomalous sheet the staged analysis ends with a nonempty `definitely`
verdict pairing the target's one-cell rectangle with its neighbour. -/
theorem analysis_definitely_example :
    (incrementalFatCrossAnalysis exampleHost exampleRng exampleAddr false false).2 =
      Maybe.definitely
        ([⟨1, ⟨⟨2, 2, 0⟩, ⟨2, 2, 0⟩⟩, ⟨⟨2, 1, 0⟩, ⟨2, 1, 0⟩⟩⟩], []) := by
  decide

end ExceLint